import Mathlib

/-!
# Verification of the tagfix audio metadata editor (src/tagfix.py)

Shallow embedding of the tag-translation core of `tagfix.py`:
the per-extension dispatch of `get_tag_value` / `set_tag_value`, the
`load_audio_file` extension classification, the per-file body of the
cover-embedding loop of `process_album_cover`, and `find_audio_files`.

Python strings are modelled by Lean `String` (a `List Char`), byte strings
(image payloads) also by `String`, Python `dict`s by insertion-ordered
association lists, mutagen file handles by an explicit `Audio` state, and
in-place mutation by returning the new state.  Code paths that can raise in
Python are modelled in `Except String`; the public entry points catch the
error exactly where the source's `try/except` does.
-/

/-- Association-list lookup, modelling Python `dict.get` / `in` + `[]`. -/
def assocGet {α β : Type} [DecidableEq α] : List (α × β) → α → Option β
  | [], _ => none
  | (k0, v0) :: rest, k => if k0 = k then some v0 else assocGet rest k

/-- Association-list update, modelling Python `dict.__setitem__`:
replace in place if the key is present, else append. -/
def assocSet {α β : Type} [DecidableEq α] : List (α × β) → α → β → List (α × β)
  | [], k, v => [(k, v)]
  | (k0, v0) :: rest, k, v =>
    if k0 = k then (k, v) :: rest else (k0, v0) :: assocSet rest k v

theorem assocGet_assocSet_self {α β : Type} [DecidableEq α]
    (l : List (α × β)) (k : α) (v : β) : assocGet (assocSet l k v) k = some v := by
  induction l with
  | nil => simp [assocSet, assocGet]
  | cons kv rest ih =>
    obtain ⟨k0, v0⟩ := kv
    by_cases h : k0 = k
    · simp [assocSet, assocGet, h]
    · simp [assocSet, assocGet, h, ih]

/-- ASCII lower-casing of one character, modelling Python `str.lower` on the
ASCII range (the source only compares against ASCII extension literals;
non-ASCII case mapping is not modelled). -/
def pyCharLower (c : Char) : Char :=
  if h : 65 ≤ c.toNat ∧ c.toNat ≤ 90 then
    Char.ofNatAux (c.toNat + 32) (Or.inl (by omega))
  else c

/-- Python `str.lower`, character-wise (ASCII model). -/
def pyLower (s : String) : String := ⟨s.data.map pyCharLower⟩

theorem toNat_pyCharLower_of_upper (c : Char) (h : 65 ≤ c.toNat ∧ c.toNat ≤ 90) :
    (pyCharLower c).toNat = c.toNat + 32 := by
  simp only [pyCharLower, dif_pos h]
  rfl

theorem pyCharLower_idem (c : Char) : pyCharLower (pyCharLower c) = pyCharLower c := by
  by_cases h : 65 ≤ c.toNat ∧ c.toNat ≤ 90
  · have h2 := toNat_pyCharLower_of_upper c h
    rw [pyCharLower, dif_neg]
    omega
  · have hc : pyCharLower c = c := by rw [pyCharLower, dif_neg h]
    rw [hc, hc]

theorem pyLower_idem (s : String) : pyLower (pyLower s) = pyLower s := by
  show String.mk ((s.data.map pyCharLower).map pyCharLower) = String.mk (s.data.map pyCharLower)
  rw [List.map_map]
  congr 1
  apply List.map_congr_left
  intro c _
  exact pyCharLower_idem c

/-- The basename (part after the last `/`) of a POSIX path, char-list level. -/
def baseChars (s : List Char) : List Char :=
  (s.reverse.takeWhile (· ≠ '/')).reverse

/-- The extension (including the leading dot) returned by Python
`os.path.splitext(p)[1]`: the part of the basename from its last dot,
where leading dots of the basename do not start an extension. -/
def extChars (s : List Char) : List Char :=
  let base := baseChars s
  let rest := base.dropWhile (· = '.')
  let revSuffix := rest.reverse.takeWhile (· ≠ '.')
  if revSuffix.length = rest.length then [] else '.' :: revSuffix.reverse

/-- `os.path.splitext(p)[1]` as a `String`. -/
def extOf (s : String) : String := ⟨extChars s.data⟩

/-- `os.path.splitext(filepath.lower())[1]`, the dispatch key computed at the
top of `get_tag_value`, `set_tag_value` and `load_audio_file`. -/
def pyExt (filepath : String) : String := extOf (pyLower filepath)

/-- Digit run to a number, for the model of Python `int()`. -/
def digitsToNat (l : List Char) : Option Nat :=
  if l ≠ [] ∧ l.all (·.isDigit) then
    some (l.foldl (fun a c => a * 10 + (c.toNat - 48)) 0)
  else none

/-- Python whitespace stripped by `str.strip()` and `int()`. -/
def isPySpace (c : Char) : Bool :=
  c == ' ' || c == '\t' || c == '\n' || c == '\r' || c == '\x0b' || c == '\x0c'

/-- Python `int(s)` on a decimal string: optional surrounding whitespace,
optional sign, a nonempty digit run; `none` models the raised `ValueError`.
(Underscore digit grouping is not modelled.) -/
def pyInt (s : String) : Option Int :=
  let t := ((s.data.dropWhile isPySpace).reverse.dropWhile isPySpace).reverse
  match t with
  | '+' :: ds => (digitsToNat ds).map Int.ofNat
  | '-' :: ds => (digitsToNat ds).map (fun n => -(n : Int))
  | ds => (digitsToNat ds).map Int.ofNat

/-- An ID3 frame as constructed/read by the source: text frames
(`TIT2`, `TPE1`, ..., `TDRC`, `TRCK`, `TPOS`), the `COMM` comment frame with
its language and description, and the `APIC` embedded-picture frame
(which has no `.text`, hence reading it as text raises). -/
inductive ID3Frame : Type
  | textFrame (encoding : Nat) (text : List String)
  | commFrame (encoding : Nat) (lang : String) (desc : String) (text : List String)
  | apicFrame (encoding : Nat) (mime : String) (picType : Nat) (desc : String) (data : String)
deriving DecidableEq, Repr

/-- The `.text` attribute of a frame; `none` models the `AttributeError`
raised on frames without text (`APIC`). -/
def frameText : ID3Frame → Option (List String)
  | .textFrame _ t => some t
  | .commFrame _ _ _ t => some t
  | .apicFrame _ _ _ _ _ => none

/-- A value stored under an MP4 atom key: a list of (number, total) pairs
(`trkn`/`disk`), a list of text values, or a list of cover byte strings
(`covr`). -/
inductive MP4Value : Type
  | pairs (l : List (Int × Int))
  | texts (l : List String)
  | covers (l : List String)
deriving DecidableEq, Repr

/-- A FLAC/vorbis `Picture` block as built in `process_album_cover`. -/
structure FlacPicture : Type where
  picType : Nat
  mime : String
  desc : String
  data : String
deriving DecidableEq, Repr

/-- A loaded mutagen handle.
`id3` (for `.mp3`/`.wav`): the optional ID3 tag container keyed by frame
hash key (`audio.tags` is `None` when absent).
`mp4` (for `.m4a`): the atom-key dictionary.
`vorbis` (for `.flac`/`.ogg`/`.opus`/`.wma` — every extension reaching the
`else` branches): the comment dictionary plus the picture block list. -/
inductive Audio : Type
  | id3 (tags : Option (List (String × ID3Frame)))
  | mp4 (tags : List (String × MP4Value))
  | vorbis (tags : List (String × List String)) (pictures : List FlacPicture)
deriving DecidableEq, Repr

/-- `audio.tags is not None` for id3 handles; other kinds always carry tags. -/
def has_tags : Audio → Bool
  | .id3 t => t.isSome
  | .mp4 _ => true
  | .vorbis _ _ => true

/-- ID3_TAG_MAP of the source, with the frame classes replaced by their
frame ids (the code only uses `tag_class.__name__` as the dict key and the
constructor shape, which `ID3Frame` captures). -/
def ID3_TAG_MAP : List (String × String) :=
  [("title", "TIT2"), ("artist", "TPE1"), ("album", "TALB"),
   ("albumartist", "TPE2"), ("genre", "TCON"), ("date", "TDRC"),
   ("tracknumber", "TRCK"), ("discnumber", "TPOS"), ("comment", "COMM")]

/-- MP4_TAG_MAP of the source. -/
def MP4_TAG_MAP : List (String × String) :=
  [("title", "\xa9nam"), ("artist", "\xa9ART"), ("album", "\xa9alb"),
   ("albumartist", "aART"), ("genre", "\xa9gen"), ("date", "\xa9day"),
   ("tracknumber", "trkn"), ("discnumber", "disk"), ("comment", "\xa9cmt")]

/-- SUPPORTED_EXTENSIONS of the source. -/
def SUPPORTED_EXTENSIONS : List String :=
  [".flac", ".mp3", ".m4a", ".ogg", ".opus", ".wma", ".wav"]

/-- The mutagen class `load_audio_file` dispatches to. -/
inductive AudioKind : Type
  | flac | mp3 | mp4 | oggvorbis | oggopus | asf | wave
deriving DecidableEq, Repr

/-- Extension classification extracted from the `if/elif` chain of
`load_audio_file` (`classify` of the spec): lowercase extension with dot in,
container class or `None` out. -/
def classify (ext : String) : Option AudioKind :=
  if ext = ".flac" then some .flac
  else if ext = ".mp3" then some .mp3
  else if ext = ".m4a" then some .mp4
  else if ext = ".ogg" then some .oggvorbis
  else if ext = ".opus" then some .oggopus
  else if ext = ".wma" then some .asf
  else if ext = ".wav" then some .wave
  else none

/-! ## get_tag_value / set_tag_value -/

/-- `str(value[0][0]) if value and value[0] else None` for the mp4
tracknumber/discnumber read path.  On a pair list this is the decimal string
of the first number; the other constructors model Python indexing on
mistyped stored values (`s[0]` of a string is its first character, `b[0]`
of a byte string is an integer) and cannot arise from this tool's writes. -/
def mp4First : MP4Value → Option String
  | .pairs [] => none
  | .pairs ((n, _) :: _) => some (toString n)
  | .texts [] => none
  | .texts (s :: _) =>
    match s.data with
    | [] => none
    | c :: _ => some ⟨[c]⟩
  | .covers [] => none
  | .covers (d :: _) =>
    match d.data with
    | [] => none
    | c :: _ => some (toString c.toNat)

/-- `str(value[0]) if value else None` for the other mp4 tags.
`str` of a Python pair renders as `(a, b)`; `str` of a cover byte string is
approximated by its payload (never produced by this tool's writes). -/
def mp4Str : MP4Value → Option String
  | .pairs [] => none
  | .pairs ((a, b) :: _) => some ("(" ++ toString a ++ ", " ++ toString b ++ ")")
  | .texts [] => none
  | .texts (s :: _) => some s
  | .covers [] => none
  | .covers (d :: _) => some d

/-- The `try` body of `get_tag_value`.  `.error` marks the raise points the
surrounding `except Exception` catches: reading `.text` off a textless frame
(`AttributeError`), `text[0]` of an empty text list (`IndexError`), and
duck-typing failure on a handle of the wrong kind for the extension (which
`load_audio_file` never produces). -/
def tryGet (audio : Audio) (tag : String) (filepath : String) :
    Except String (Option String) :=
  let ext := pyExt filepath
  if ext = ".mp3" ∨ ext = ".wav" then
    match audio with
    | .id3 none => .ok none
    | .id3 (some frames) =>
      match assocGet ID3_TAG_MAP tag with
      | none => .ok none
      | some fname =>
        match assocGet frames fname with
        | none => .ok none
        | some fr =>
          match frameText fr with
          | none => .error "AttributeError"
          | some [] => .error "IndexError"
          | some (s :: _) => .ok (some s)
    | _ => .error "TypeError"
  else if ext = ".m4a" then
    match audio with
    | .mp4 tags =>
      match assocGet MP4_TAG_MAP tag with
      | none => .ok none
      | some key =>
        match assocGet tags key with
        | none => .ok none
        | some v =>
          if tag = "tracknumber" ∨ tag = "discnumber" then .ok (mp4First v)
          else .ok (mp4Str v)
    | _ => .error "TypeError"
  else
    match audio with
    | .vorbis tags _ =>
      match assocGet tags tag with
      | none => .ok none
      | some [] => .ok none
      | some (s :: _) => .ok (some s)
    | _ => .error "TypeError"

/-- `get_tag_value` of the source: the `try` body with every exception
swallowed into `None`. -/
def get_tag_value (audio : Audio) (tag : String) (filepath : String) : Option String :=
  match tryGet audio tag filepath with
  | .ok r => r
  | .error _ => none

/-- The `try` body of `set_tag_value`, returning the mutated handle.
The only raise point reachable from loaded handles is `int(value)` on a
non-numeric mp4 track/disc value; it fires before any mutation. -/
def trySet (audio : Audio) (tag : String) (value : String) (filepath : String) :
    Except String Audio :=
  let ext := pyExt filepath
  if ext = ".mp3" ∨ ext = ".wav" then
    match audio with
    | .id3 t =>
      -- `audio.add_tags()` when the container is absent, then the map lookup
      let frames := t.getD []
      match assocGet ID3_TAG_MAP tag with
      | none => .ok (.id3 (some frames))
      | some fname =>
        if tag = "comment" then
          .ok (.id3 (some (assocSet frames fname (.commFrame 3 "eng" "" [value]))))
        else
          .ok (.id3 (some (assocSet frames fname (.textFrame 3 [value]))))
    | _ => .error "TypeError"
  else if ext = ".m4a" then
    match audio with
    | .mp4 tags =>
      match assocGet MP4_TAG_MAP tag with
      | none => .ok (.mp4 tags)
      | some key =>
        if tag = "tracknumber" ∨ tag = "discnumber" then
          match pyInt value with
          | none => .error ("invalid literal for int with base 10: " ++ value)
          | some n => .ok (.mp4 (assocSet tags key (.pairs [(n, 0)])))
        else .ok (.mp4 (assocSet tags key (.texts [value])))
    | _ => .error "TypeError"
  else
    match audio with
    | .vorbis tags pics => .ok (.vorbis (assocSet tags tag [value]) pics)
    | _ => .error "TypeError"

/-- Result of `set_tag_value`: the returned boolean, the handle state after
the call, and the warning printed by the `except` arm (if any). -/
structure SetResult : Type where
  ok : Bool
  audio : Audio
  warning : Option String
deriving DecidableEq, Repr

/-- `set_tag_value` of the source: the `try` body; on an exception the
function prints `Warning: Could not set <tag>: <e>` and returns `False`. -/
def set_tag_value (audio : Audio) (tag : String) (value : String) (filepath : String) :
    SetResult :=
  match trySet audio tag value filepath with
  | .ok a => ⟨true, a, none⟩
  | .error e => ⟨false, audio, some ("  Warning: Could not set " ++ tag ++ ": " ++ e)⟩

/-- Per-file body of the embedding loop at the end of `process_album_cover`
(the tag mutation; loading and saving are I/O around it).  The loop has no
`try/except`, so a raise here propagates out of `process_album_cover`
uncaught; `.error` marks those raise points.  `.mp3`: ensure a tag
container and `tags.add` an `APIC` frame — mutagen stores it under its hash
key `"APIC:" + desc`, replacing only a picture with the same description.
`.flac`: `clear_pictures()` then `add_picture` of a fresh front-cover
`Picture` (these methods exist on mutagen `FLAC` handles).  `.m4a`: replace
the whole `covr` atom with a one-element list.  `.ogg`/`.opus`/`.wma`: the
code calls the same `clear_pictures()`/`add_picture()`, but mutagen
`OggVorbis`/`OggOpus`/`ASF` objects have no such methods, so the call
raises an uncaught `AttributeError` for every handle of those kinds.
Any other extension (notably `.wav`) matches no branch and the handle is
untouched.  A handle of the wrong kind for the extension cannot be produced
by `load_audio_file`; it is modelled as the duck-typing raise. -/
def embed_cover (audio : Audio) (filepath : String) (img_data : String) :
    Except String Audio :=
  let ext := pyExt filepath
  if ext = ".mp3" then
    match audio with
    | .id3 t =>
      .ok (.id3 (some (assocSet (t.getD []) "APIC:Cover"
        (.apicFrame 3 "image/jpeg" 3 "Cover" img_data))))
    | _ => .error "TypeError"
  else if ext = ".flac" then
    match audio with
    | .vorbis tags _ => .ok (.vorbis tags [⟨3, "image/jpeg", "Cover", img_data⟩])
    | _ => .error "TypeError"
  else if ext = ".m4a" then
    match audio with
    | .mp4 tags => .ok (.mp4 (assocSet tags "covr" (.covers [img_data])))
    | _ => .error "TypeError"
  else if ext = ".ogg" ∨ ext = ".opus" ∨ ext = ".wma" then
    .error "AttributeError"
  else .ok audio

/-- Whether an ID3 container entry is an embedded picture (`APIC`) frame. -/
def isApicKV (kv : String × ID3Frame) : Bool :=
  match kv.2 with
  | .apicFrame _ _ _ _ _ => true
  | _ => false

/-- Number of embedded picture records held by a handle. -/
def pictureCount : Audio → Nat
  | .id3 none => 0
  | .id3 (some frames) => (frames.filter isApicKV).length
  | .mp4 tags =>
    match assocGet tags "covr" with
    | some (.covers l) => l.length
    | _ => 0
  | .vorbis _ pics => pics.length

/-! ## find_audio_files -/

/-- A filesystem entry: a plain file or a directory with named children. -/
inductive FSEntry : Type
  | file
  | dir (entries : List (String × FSEntry))
deriving Inhabited

/-- The filter of the `os.walk` loop:
`os.path.splitext(file.lower())[1] in SUPPORTED_EXTENSIONS`. -/
def isSupportedFile (name : String) : Bool :=
  extOf (pyLower name) ∈ SUPPORTED_EXTENSIONS

/-- Whether a POSIX path is absolute. -/
def isAbs (s : String) : Bool := s.data.head? == some '/'

/-- `os.path.join(a, b)` for the names produced by `os.walk`. -/
def pathJoin (a b : String) : String :=
  if isAbs b then b
  else if a = "" ∨ a.data.getLast? = some '/' then a ++ b
  else a ++ "/" ++ b

/-- The `os.walk` collection loop of `find_audio_files`: every file under
the tree whose (lowercased) extension is supported, at its joined path. -/
def walkEntries (pre : String) : List (String × FSEntry) → List String
  | [] => []
  | (n, .file) :: rest =>
    (if isSupportedFile n then [pathJoin pre n] else []) ++ walkEntries pre rest
  | (n, .dir sub) :: rest => walkEntries (pathJoin pre n) sub ++ walkEntries pre rest

/-- Strip leading and trailing characters satisfying `p`
(Python `str.strip`). -/
def stripChars (p : Char → Bool) (s : String) : String :=
  ⟨((s.data.dropWhile p).reverse.dropWhile p).reverse⟩

/-- `base_dir.strip().strip(DOUBLEQUOTE).strip(QUOTE)` of the source. -/
def pyStripInput (s : String) : String :=
  stripChars (fun c => c == '\x27') (stripChars (fun c => c == '"') (stripChars isPySpace s))

/-- `os.path.expanduser`: a leading bare `~` is replaced by the home
directory.  (The `~user` form resolves another account's home and is left
unchanged here.) -/
def expanduser (home s : String) : String :=
  match s.data with
  | '~' :: rest =>
    if rest = [] then home
    else if rest.head? = some '/' then home ++ (⟨rest⟩ : String)
    else s
  | _ => s

/-- `find_audio_files` of the source over a modelled filesystem
(`fs` maps a path to its entry, `none` when nothing exists there): strip
and expand the input, report an error (second component `true`) and return
`[]` when the path is missing or not a directory, else collect every
supported file under the tree and sort the paths (Python `sorted`, i.e.
lexicographically by code point — `List.insertionSort` is stable like
Python's sort). -/
def find_audio_files (fs : String → Option FSEntry) (home base_dir : String) :
    List String × Bool :=
  let d := expanduser home (pyStripInput base_dir)
  match fs d with
  | none => ([], true)
  | some .file => ([], true)
  | some (.dir entries) => (List.insertionSort (· ≤ ·) (walkEntries d entries), false)

/-- A directory-entry name as `os.walk` actually yields it: nonempty and
free of the path separator. -/
def noSlashName (s : String) : Bool :=
  s ≠ "" && '/' ∉ s.data

/-- Well-formedness of a modelled directory tree: every entry name at every
level is a real `os.walk` name (`noSlashName`). -/
def wfEntries : List (String × FSEntry) → Bool
  | [] => true
  | (n, .file) :: rest => noSlashName n && wfEntries rest
  | (n, .dir sub) :: rest => noSlashName n && wfEntries sub && wfEntries rest

/-- Fold `os.path.join` over a chain of directory names. -/
def joinPath (pre : String) : List String → String
  | [] => pre
  | n :: ns => joinPath (pathJoin pre n) ns

/-- The tree `l` contains a file named `n` under the directory-name chain
`ns` (the specification of what `os.walk` visits, written independently of
the collection loop). -/
inductive FileIn : List (String × FSEntry) → List String → String → Prop
  | here {l : List (String × FSEntry)} {n : String}
      (hmem : (n, FSEntry.file) ∈ l) : FileIn l [] n
  | there {l : List (String × FSEntry)} {d : String}
      {sub : List (String × FSEntry)} {ns : List String} {n : String}
      (hmem : (d, FSEntry.dir sub) ∈ l) (hin : FileIn sub ns n) :
      FileIn l (d :: ns) n

/-! ## Claims -/

/-- C7: Classification of a file by extension is total and deterministic:
every extension in {.flac, .mp3, .m4a, .ogg, .opus, .wma, .wav} maps to
exactly one container kind, and every extension outside that set
(e.g. ".xyz") yields None rather than an error. -/
theorem c7_classify_total :
    (∀ ext, ext ∈ SUPPORTED_EXTENSIONS → ∃! k, classify ext = some k) ∧
    (∀ ext, ext ∉ SUPPORTED_EXTENSIONS → classify ext = none) ∧
    classify ".xyz" = none := by
  refine ⟨?_, ?_, rfl⟩
  · intro ext h
    simp only [SUPPORTED_EXTENSIONS, List.mem_cons, List.not_mem_nil, or_false] at h
    rcases h with rfl | rfl | rfl | rfl | rfl | rfl | rfl <;>
      exact ⟨_, rfl, fun y hy => (Option.some.inj hy).symm⟩
  · intro ext h
    simp only [SUPPORTED_EXTENSIONS, List.mem_cons, List.not_mem_nil, or_false] at h
    push_neg at h
    obtain ⟨h1, h2, h3, h4, h5, h6, h7⟩ := h
    simp [classify, h1, h2, h3, h4, h5, h6, h7]

theorem c7_witness : ∃! k, classify ".mp3" = some k :=
  c7_classify_total.1 ".mp3" (by decide)

/-- C5: For id3-like and free-text-wav kinds (the `.mp3`/`.wav` branch),
`get` on a handle whose tag container is absent returns None for every
canonical tag and leaves the handle unchanged — `get_tag_value` never
mutates its handle by construction, and the handle's "has tags" predicate
is still false. -/
theorem c5_get_no_container (tag filepath : String)
    (h : pyExt filepath = ".mp3" ∨ pyExt filepath = ".wav") :
    get_tag_value (.id3 none) tag filepath = none ∧
    has_tags (.id3 none) = false := by
  refine ⟨?_, rfl⟩
  simp only [get_tag_value, tryGet]
  rw [if_pos h]

theorem c5_witness :
    get_tag_value (.id3 none) "artist" "song.mp3" = none ∧
    has_tags (.id3 none) = false :=
  c5_get_no_container "artist" "song.mp3" (Or.inl rfl)

/-- C3: For the mp4 kind and tag in {tracknumber, discnumber}, `set` parses
the value as an integer n, stores the single pair (n, 0) under the mapped
atom key (total component 0), and a subsequent `get` returns the decimal
string of n. -/
theorem c3_mp4_track_roundtrip (filepath tag v : String)
    (tags : List (String × MP4Value)) (n : Int)
    (hext : pyExt filepath = ".m4a")
    (htag : tag = "tracknumber" ∨ tag = "discnumber")
    (hv : pyInt v = some n) :
    (set_tag_value (.mp4 tags) tag v filepath).ok = true ∧
    (∃ key, assocGet MP4_TAG_MAP tag = some key ∧
      (set_tag_value (.mp4 tags) tag v filepath).audio =
        .mp4 (assocSet tags key (.pairs [(n, 0)]))) ∧
    get_tag_value (set_tag_value (.mp4 tags) tag v filepath).audio tag filepath =
      some (toString n) := by
  rcases htag with rfl | rfl
  · have hset : set_tag_value (.mp4 tags) "tracknumber" v filepath =
        ⟨true, .mp4 (assocSet tags "trkn" (.pairs [(n, 0)])), none⟩ := by
      simp [set_tag_value, trySet, hext, assocGet, MP4_TAG_MAP, hv]
    refine ⟨by rw [hset], ⟨"trkn", by simp [assocGet, MP4_TAG_MAP], by rw [hset]⟩, ?_⟩
    rw [hset]
    simp [get_tag_value, tryGet, hext, assocGet, MP4_TAG_MAP,
      assocGet_assocSet_self, mp4First]
  · have hset : set_tag_value (.mp4 tags) "discnumber" v filepath =
        ⟨true, .mp4 (assocSet tags "disk" (.pairs [(n, 0)])), none⟩ := by
      simp [set_tag_value, trySet, hext, assocGet, MP4_TAG_MAP, hv]
    refine ⟨by rw [hset], ⟨"disk", by simp [assocGet, MP4_TAG_MAP], by rw [hset]⟩, ?_⟩
    rw [hset]
    simp [get_tag_value, tryGet, hext, assocGet, MP4_TAG_MAP,
      assocGet_assocSet_self, mp4First]

theorem c3_witness :
    (set_tag_value (.mp4 []) "tracknumber" "7" "x.m4a").ok = true ∧
    (∃ key, assocGet MP4_TAG_MAP "tracknumber" = some key ∧
      (set_tag_value (.mp4 []) "tracknumber" "7" "x.m4a").audio =
        .mp4 (assocSet [] key (.pairs [(7, 0)]))) ∧
    get_tag_value (set_tag_value (.mp4 []) "tracknumber" "7" "x.m4a").audio
      "tracknumber" "x.m4a" = some (toString (7 : Int)) :=
  c3_mp4_track_roundtrip "x.m4a" "tracknumber" "7" [] 7 rfl (Or.inl rfl) (by decide)

/-- C4: For the mp4 kind and tag in {tracknumber, discnumber}, if the value
does not parse as an integer, `set` returns false and the handle is exactly
what it was before the call (the `int(value)` raise fires before any
mutation). -/
theorem c4_mp4_track_invalid (filepath tag v : String)
    (tags : List (String × MP4Value))
    (hext : pyExt filepath = ".m4a")
    (htag : tag = "tracknumber" ∨ tag = "discnumber")
    (hv : pyInt v = none) :
    (set_tag_value (.mp4 tags) tag v filepath).ok = false ∧
    (set_tag_value (.mp4 tags) tag v filepath).audio = .mp4 tags := by
  rcases htag with rfl | rfl <;>
    simp [set_tag_value, trySet, hext, assocGet, MP4_TAG_MAP, hv]

theorem c4_witness :
    (set_tag_value (.mp4 [("trkn", .pairs [(2, 0)])]) "tracknumber" "three" "x.m4a").ok
      = false ∧
    (set_tag_value (.mp4 [("trkn", .pairs [(2, 0)])]) "tracknumber" "three" "x.m4a").audio
      = .mp4 [("trkn", .pairs [(2, 0)])] :=
  c4_mp4_track_invalid "x.m4a" "tracknumber" "three" [("trkn", .pairs [(2, 0)])]
    rfl (Or.inl rfl) (by decide)

/-- C6: Neither `get` nor `set` raises across its boundary: an exception
inside the `try` body of `get_tag_value` yields None, and one inside
`set_tag_value` yields false with the original handle retained, after a
warning naming the tag. -/
theorem c6_no_raise (audio : Audio) (tag v filepath : String) :
    (∀ e, tryGet audio tag filepath = .error e →
      get_tag_value audio tag filepath = none) ∧
    (∀ e, trySet audio tag v filepath = .error e →
      set_tag_value audio tag v filepath =
        ⟨false, audio, some ("  Warning: Could not set " ++ tag ++ ": " ++ e)⟩) := by
  constructor
  · intro e h
    simp [get_tag_value, h]
  · intro e h
    simp [set_tag_value, h]

theorem c6_witness :
    get_tag_value (.id3 (some [("TIT2", .textFrame 3 [])])) "title" "a.mp3" = none ∧
    set_tag_value (.mp4 []) "tracknumber" "three" "x.m4a" =
      ⟨false, .mp4 [],
        some "  Warning: Could not set tracknumber: invalid literal for int with base 10: three"⟩ :=
  ⟨(c6_no_raise (.id3 (some [("TIT2", .textFrame 3 [])])) "title" "v" "a.mp3").1
      "IndexError" rfl,
   (c6_no_raise (.mp4 []) "tracknumber" "three" "x.m4a").2
      "invalid literal for int with base 10: three" rfl⟩

/-- C10 counterexample: on an id3-like handle with no tag container,
setting the unmapped tag "cover" returns true but does NOT leave the
handle unchanged — `audio.add_tags()` runs before the map lookup, so an
empty tag container is created and the handle differs afterwards. -/
theorem c10_counterexample :
    (set_tag_value (.id3 none) "cover" "img" "a.mp3").ok = true ∧
    (set_tag_value (.id3 none) "cover" "img" "a.mp3").audio ≠ Audio.id3 none ∧
    has_tags (set_tag_value (.id3 none) "cover" "img" "a.mp3").audio = true := by
  decide

/-- C10 amended: for id3-like (mp3/wav) and mp4 kinds, `set` with a
canonical tag that has no entry in the kind's native-key table returns true
and stores no tag value; the handle is fully unchanged except that an
id3-like handle with no tag container gets an empty container created
first. -/
theorem c10_amended_noop (filepath tag v : String) :
    ((pyExt filepath = ".mp3" ∨ pyExt filepath = ".wav") →
      assocGet ID3_TAG_MAP tag = none →
      (∀ frames, set_tag_value (.id3 (some frames)) tag v filepath =
        ⟨true, .id3 (some frames), none⟩) ∧
      set_tag_value (.id3 none) tag v filepath = ⟨true, .id3 (some []), none⟩) ∧
    (pyExt filepath = ".m4a" → assocGet MP4_TAG_MAP tag = none →
      ∀ tags, set_tag_value (.mp4 tags) tag v filepath =
        ⟨true, .mp4 tags, none⟩) := by
  constructor
  · intro hext hmap
    constructor
    · intro frames
      simp [set_tag_value, trySet, hext, hmap]
    · simp [set_tag_value, trySet, hext, hmap]
  · intro hext hmap tags
    simp [set_tag_value, trySet, hext, hmap]

theorem c10_witness :
    set_tag_value (.mp4 [("trkn", .pairs [(2, 0)])]) "cover" "img" "x.m4a" =
      ⟨true, .mp4 [("trkn", .pairs [(2, 0)])], none⟩ :=
  (c10_amended_noop "x.m4a" "cover" "img").2 rfl rfl [("trkn", .pairs [(2, 0)])]

/-- C9: Extension handling is case-insensitive at every entry point:
classification, traversal inclusion, get and set behave identically on a
path and on its lowercased form, because the extension is lowercased before
dispatch (and lowering is idempotent). -/
theorem c9_case_insensitive (p : String) (audio : Audio) (tag v : String) :
    classify (pyExt (pyLower p)) = classify (pyExt p) ∧
    isSupportedFile (pyLower p) = isSupportedFile p ∧
    get_tag_value audio tag (pyLower p) = get_tag_value audio tag p ∧
    set_tag_value audio tag v (pyLower p) = set_tag_value audio tag v p := by
  have hp : pyExt (pyLower p) = pyExt p := by
    show extOf (pyLower (pyLower p)) = extOf (pyLower p)
    rw [pyLower_idem]
  have hg : tryGet audio tag (pyLower p) = tryGet audio tag p := by
    unfold tryGet
    rw [hp]
  have hst : trySet audio tag v (pyLower p) = trySet audio tag v p := by
    unfold trySet
    rw [hp]
  refine ⟨by rw [hp], ?_, by simp [get_tag_value, hg], by simp [set_tag_value, hst]⟩
  show decide (extOf (pyLower (pyLower p)) ∈ SUPPORTED_EXTENSIONS) = _
  rw [pyLower_idem]
  rfl

/-- C2 counterexample: for the mp3 kind the claim fails — a handle already
holding two pictures (APIC frames with distinct descriptions) holds three
after the cover step, because the new APIC is added under its own hash key
`APIC:Cover` instead of clearing existing pictures. -/
theorem c2_counterexample :
    pictureCount (.id3 (some [("APIC:a", .apicFrame 3 "image/jpeg" 3 "a" "D1"),
      ("APIC:b", .apicFrame 3 "image/jpeg" 3 "b" "D2")])) = 2 ∧
    embed_cover
      (.id3 (some [("APIC:a", .apicFrame 3 "image/jpeg" 3 "a" "D1"),
        ("APIC:b", .apicFrame 3 "image/jpeg" 3 "b" "D2")]))
      "x.mp3" "IMG" =
      .ok (.id3 (some [("APIC:a", .apicFrame 3 "image/jpeg" 3 "a" "D1"),
        ("APIC:b", .apicFrame 3 "image/jpeg" 3 "b" "D2"),
        ("APIC:Cover", .apicFrame 3 "image/jpeg" 3 "Cover" "IMG")])) ∧
    pictureCount (.id3 (some [("APIC:a", .apicFrame 3 "image/jpeg" 3 "a" "D1"),
      ("APIC:b", .apicFrame 3 "image/jpeg" 3 "b" "D2"),
      ("APIC:Cover", .apicFrame 3 "image/jpeg" 3 "Cover" "IMG")])) = 3 := by
  exact ⟨by decide, rfl, by decide⟩

/-- C2 amended: only the flac kind clears all existing pictures first and
keeps exactly one picture with type 3 (front cover) and the fixed
description "Cover", even when the handle already held two or more; for
mp4 the whole `covr` atom is replaced so exactly one embedded cover remains
(mp4 covers carry no type/description fields).  For ogg/opus/wma the cover
step raises an uncaught AttributeError for every handle (mutagen
OggVorbis/OggOpus/ASF have no clear_pictures/add_picture); for mp3 the new
APIC is only added under its own description key, so other pictures
survive; wav matches no branch and is left untouched. -/
theorem c2_amended_cover (filepath d : String) :
    (∀ (tags : List (String × List String)) (pics : List FlacPicture),
      pyExt filepath = ".flac" →
      embed_cover (.vorbis tags pics) filepath d =
        .ok (.vorbis tags [⟨3, "image/jpeg", "Cover", d⟩]) ∧
      pictureCount (.vorbis tags [⟨3, "image/jpeg", "Cover", d⟩]) = 1) ∧
    (∀ tags : List (String × MP4Value), pyExt filepath = ".m4a" →
      embed_cover (.mp4 tags) filepath d =
        .ok (.mp4 (assocSet tags "covr" (.covers [d]))) ∧
      pictureCount (.mp4 (assocSet tags "covr" (.covers [d]))) = 1) ∧
    (∀ (audio : Audio),
      (pyExt filepath = ".ogg" ∨ pyExt filepath = ".opus" ∨ pyExt filepath = ".wma") →
      embed_cover audio filepath d = .error "AttributeError") := by
  refine ⟨?_, ?_, ?_⟩
  · intro tags pics hext
    exact ⟨by simp [embed_cover, hext], by simp [pictureCount]⟩
  · intro tags hext
    exact ⟨by simp [embed_cover, hext],
      by simp [pictureCount, assocGet_assocSet_self]⟩
  · intro audio hext
    rcases hext with h | h | h <;> simp [embed_cover, h]

theorem c2_witness :
    embed_cover (.vorbis [] [⟨3, "m", "a", "X"⟩, ⟨3, "m", "b", "Y"⟩]) "a.flac" "IMG" =
      .ok (.vorbis [] [⟨3, "image/jpeg", "Cover", "IMG"⟩]) ∧
    pictureCount (.vorbis ([] : List (String × List String))
      [⟨3, "image/jpeg", "Cover", "IMG"⟩]) = 1 ∧
    embed_cover (.vorbis [] [⟨3, "m", "a", "X"⟩, ⟨3, "m", "b", "Y"⟩]) "b.ogg" "IMG" =
      .error "AttributeError" :=
  have h1 := (c2_amended_cover "a.flac" "IMG").1 []
    [⟨3, "m", "a", "X"⟩, ⟨3, "m", "b", "Y"⟩] rfl
  ⟨h1.1, h1.2,
    (c2_amended_cover "b.ogg" "IMG").2.2
      (.vorbis [] [⟨3, "m", "a", "X"⟩, ⟨3, "m", "b", "Y"⟩]) (Or.inl rfl)⟩

theorem data_append (a b : String) : (a ++ b).data = a.data ++ b.data := rfl

theorem isAbs_append (a b : String) (h : isAbs a = true) : isAbs (a ++ b) = true := by
  obtain ⟨l⟩ := a
  cases l with
  | nil => simp [isAbs] at h
  | cons c t =>
    simp only [isAbs, List.head?] at h ⊢
    rw [data_append]
    simpa using h

theorem isAbs_pathJoin (a b : String) (h : isAbs a = true) :
    isAbs (pathJoin a b) = true := by
  unfold pathJoin
  split
  · assumption
  · split
    · exact isAbs_append a b h
    · exact isAbs_append _ _ (isAbs_append a "/" h)

theorem mem_walkEntries (pre : String) (l : List (String × FSEntry)) :
    ∀ f ∈ walkEntries pre l, ∃ p n, f = pathJoin p n ∧ isSupportedFile n = true := by
  induction pre, l using walkEntries.induct with
  | case1 pre =>
    intro f hf
    simp [walkEntries] at hf
  | case2 pre n rest ih =>
    intro f hf
    simp only [walkEntries] at hf
    rcases List.mem_append.1 hf with hf | hf
    · by_cases hs : isSupportedFile n
      · simp only [hs, if_pos, List.mem_singleton] at hf
        exact ⟨pre, n, hf, hs⟩
      · simp [hs] at hf
    · exact ih f hf
  | case3 pre n sub rest ih1 ih2 =>
    intro f hf
    simp only [walkEntries] at hf
    rcases List.mem_append.1 hf with hf | hf
    · exact ih1 f hf
    · exact ih2 f hf

theorem abs_walkEntries (pre : String) (l : List (String × FSEntry)) :
    isAbs pre = true → ∀ f ∈ walkEntries pre l, isAbs f = true := by
  induction pre, l using walkEntries.induct with
  | case1 pre =>
    intro _ f hf
    simp [walkEntries] at hf
  | case2 pre n rest ih =>
    intro hp f hf
    simp only [walkEntries] at hf
    rcases List.mem_append.1 hf with hf | hf
    · by_cases hs : isSupportedFile n
      · simp only [hs, if_pos, List.mem_singleton] at hf
        rw [hf]
        exact isAbs_pathJoin pre n hp
      · simp [hs] at hf
    · exact ih hp f hf
  | case3 pre n sub rest ih1 ih2 =>
    intro hp f hf
    simp only [walkEntries] at hf
    rcases List.mem_append.1 hf with hf | hf
    · exact ih1 (isAbs_pathJoin pre n hp) f hf
    · exact ih2 hp f hf

/-- C8 counterexample: the returned paths are not absolute in general —
with a relative root "music" containing one file "a.mp3", the traversal
returns the relative path "music/a.mp3" (`os.path.join` never absolutizes
a relative root). -/
theorem c8_counterexample :
    (find_audio_files
      (fun p => if p = "music" then some (.dir [("a.mp3", .file)]) else none)
      "/root" "music").1 = ["music/a.mp3"] ∧
    isAbs "music/a.mp3" = false := by
  have hw : walkEntries "music" [("a.mp3", FSEntry.file)] = ["music/a.mp3"] := by
    simp only [walkEntries]
    decide
  have hfull : find_audio_files
      (fun p => if p = "music" then some (.dir [("a.mp3", .file)]) else none)
      "/root" "music" =
      (List.insertionSort (· ≤ ·) (walkEntries "music" [("a.mp3", FSEntry.file)]),
        false) := rfl
  rw [hfull, hw]
  exact ⟨rfl, rfl⟩

theorem str_append_assoc (a b c : String) : a ++ b ++ c = a ++ (b ++ c) := by
  show String.mk (a.data ++ b.data ++ c.data) = String.mk (a.data ++ (b.data ++ c.data))
  rw [List.append_assoc]

theorem isAbs_false_of_noSlash (b : String) (hb : noSlashName b = true) :
    isAbs b = false := by
  simp only [noSlashName, Bool.and_eq_true, decide_eq_true_eq] at hb
  obtain ⟨hne, hmem⟩ := hb
  obtain ⟨l⟩ := b
  cases l with
  | nil => exact absurd rfl hne
  | cons c t =>
    have hc : c ≠ '/' := fun h => hmem (by simp [h])
    simp [isAbs, hc]

theorem isAbs_append_eq (a b : String) (hb : isAbs b = false) :
    isAbs (a ++ b) = isAbs a := by
  obtain ⟨l⟩ := a
  cases l with
  | nil => exact hb
  | cons c t => rfl

theorem isAbs_append_eq_of_ne (a x : String) (ha : a ≠ "") :
    isAbs (a ++ x) = isAbs a := by
  obtain ⟨l⟩ := a
  cases l with
  | nil => exact absurd rfl ha
  | cons c t => rfl

theorem isAbs_pathJoin_eq (a b : String) (hb : noSlashName b = true) :
    isAbs (pathJoin a b) = isAbs a := by
  have hab := isAbs_false_of_noSlash b hb
  unfold pathJoin
  rw [if_neg (by simp [hab])]
  split
  · exact isAbs_append_eq a b hab
  · next h =>
    push_neg at h
    rw [str_append_assoc]
    exact isAbs_append_eq_of_ne a ("/" ++ b) h.1

theorem pathJoin_beneath (a b : String) (hb : noSlashName b = true) :
    ∃ t, pathJoin a b = a ++ t := by
  have hab := isAbs_false_of_noSlash b hb
  unfold pathJoin
  rw [if_neg (by simp [hab])]
  split
  · exact ⟨b, rfl⟩
  · exact ⟨"/" ++ b, str_append_assoc a "/" b⟩

theorem walk_beneath (pre : String) (l : List (String × FSEntry)) :
    wfEntries l = true → ∀ f ∈ walkEntries pre l,
      (∃ t, f = pre ++ t) ∧ isAbs f = isAbs pre := by
  induction pre, l using walkEntries.induct with
  | case1 pre =>
    intro _ f hf
    simp [walkEntries] at hf
  | case2 pre n rest ih =>
    intro hw f hf
    simp only [wfEntries, Bool.and_eq_true] at hw
    obtain ⟨hn, hrest⟩ := hw
    simp only [walkEntries] at hf
    rcases List.mem_append.1 hf with hf | hf
    · by_cases hs : isSupportedFile n
      · simp only [hs, if_pos, List.mem_singleton] at hf
        subst hf
        exact ⟨pathJoin_beneath pre n hn, isAbs_pathJoin_eq pre n hn⟩
      · simp [hs] at hf
    · exact ih hrest f hf
  | case3 pre n sub rest ih1 ih2 =>
    intro hw f hf
    simp only [wfEntries, Bool.and_eq_true] at hw
    obtain ⟨⟨hn, hsub⟩, hrest⟩ := hw
    simp only [walkEntries] at hf
    rcases List.mem_append.1 hf with hf | hf
    · obtain ⟨⟨t1, ht1⟩, habs⟩ := ih1 hsub f hf
      obtain ⟨t0, ht0⟩ := pathJoin_beneath pre n hn
      refine ⟨⟨t0 ++ t1, ?_⟩, ?_⟩
      · rw [ht1, ht0, str_append_assoc]
      · rw [habs, isAbs_pathJoin_eq pre n hn]
    · exact ih2 hrest f hf

theorem mem_walkEntries_of_file (pre : String) (l : List (String × FSEntry))
    (n : String) (hmem : (n, FSEntry.file) ∈ l) (hs : isSupportedFile n = true) :
    pathJoin pre n ∈ walkEntries pre l := by
  induction l with
  | nil => cases hmem
  | cons a rest ih =>
    obtain ⟨m, e⟩ := a
    rcases List.mem_cons.1 hmem with h | h
    · injection h with h1 h2
      subst h1
      subst h2
      simp only [walkEntries]
      rw [if_pos hs]
      exact List.mem_append_left _ (List.mem_singleton.2 rfl)
    · cases e with
      | file =>
        simp only [walkEntries]
        exact List.mem_append_right _ (ih h)
      | dir sub =>
        simp only [walkEntries]
        exact List.mem_append_right _ (ih h)

theorem subtree_walkEntries (pre : String) (l : List (String × FSEntry))
    (d : String) (sub : List (String × FSEntry))
    (hmem : (d, FSEntry.dir sub) ∈ l) (x : String)
    (hx : x ∈ walkEntries (pathJoin pre d) sub) : x ∈ walkEntries pre l := by
  induction l with
  | nil => cases hmem
  | cons a rest ih =>
    obtain ⟨m, e⟩ := a
    rcases List.mem_cons.1 hmem with h | h
    · injection h with h1 h2
      subst h1
      subst h2
      simp only [walkEntries]
      exact List.mem_append_left _ hx
    · cases e with
      | file =>
        simp only [walkEntries]
        exact List.mem_append_right _ (ih h)
      | dir sub2 =>
        simp only [walkEntries]
        exact List.mem_append_right _ (ih h)

theorem walkEntries_complete (l : List (String × FSEntry)) (ns : List String)
    (n : String) (h : FileIn l ns n) (hs : isSupportedFile n = true) :
    ∀ pre, pathJoin (joinPath pre ns) n ∈ walkEntries pre l := by
  induction h with
  | here hmem =>
    intro pre
    simpa only [joinPath] using mem_walkEntries_of_file pre _ _ hmem hs
  | there hmem hin ih =>
    intro pre
    simp only [joinPath]
    apply subtree_walkEntries pre _ _ _ hmem
    apply ih
    exact hs

/-- C8 amended: the traversal returns a lexicographically sorted list of
paths, each the join of some path and a name with a supported extension;
for a well-formed tree (entry names nonempty and separator-free, as
`os.walk` yields them) every returned path lies beneath the stripped and
user-expanded root (it is the root plus a suffix) and is absolute exactly
when that processed root is absolute — so a relative root yields relative
paths; conversely, the traversal is complete: every file of the tree with a
supported extension, at any subdirectory depth, appears in the result at
its joined path; a non-existent path or a path that is not a directory
yields the empty list together with a reported error. -/
theorem c8_amended_find (fs : String → Option FSEntry) (home base_dir : String) :
    List.Sorted (· ≤ ·) (find_audio_files fs home base_dir).1 ∧
    (∀ f ∈ (find_audio_files fs home base_dir).1,
      ∃ p n, f = pathJoin p n ∧ isSupportedFile n = true) ∧
    (fs (expanduser home (pyStripInput base_dir)) = none →
      find_audio_files fs home base_dir = ([], true)) ∧
    (fs (expanduser home (pyStripInput base_dir)) = some .file →
      find_audio_files fs home base_dir = ([], true)) ∧
    (isAbs (expanduser home (pyStripInput base_dir)) = true →
      ∀ f ∈ (find_audio_files fs home base_dir).1, isAbs f = true) ∧
    (∀ entries, fs (expanduser home (pyStripInput base_dir)) = some (.dir entries) →
      wfEntries entries = true →
      ∀ f ∈ (find_audio_files fs home base_dir).1,
        (∃ t, f = expanduser home (pyStripInput base_dir) ++ t) ∧
        isAbs f = isAbs (expanduser home (pyStripInput base_dir))) ∧
    (∀ entries, fs (expanduser home (pyStripInput base_dir)) = some (.dir entries) →
      ∀ ns n, FileIn entries ns n → isSupportedFile n = true →
        pathJoin (joinPath (expanduser home (pyStripInput base_dir)) ns) n ∈
          (find_audio_files fs home base_dir).1) := by
  cases hfs : fs (expanduser home (pyStripInput base_dir)) with
  | none =>
    have hfind : find_audio_files fs home base_dir = ([], true) := by
      simp [find_audio_files, hfs]
    refine ⟨by simp [hfind], by simp [hfind], fun _ => hfind, fun _ => hfind,
      by simp [hfind], ?_, ?_⟩
    · intro entries heq
      exact absurd heq (by simp)
    · intro entries heq
      exact absurd heq (by simp)
  | some e =>
    cases e with
    | file =>
      have hfind : find_audio_files fs home base_dir = ([], true) := by
        simp [find_audio_files, hfs]
      refine ⟨by simp [hfind], by simp [hfind], fun _ => hfind, fun _ => hfind,
        by simp [hfind], ?_, ?_⟩
      · intro entries heq
        exact absurd heq (by simp)
      · intro entries heq
        exact absurd heq (by simp)
    | dir entries0 =>
      have hfind : find_audio_files fs home base_dir =
          (List.insertionSort (· ≤ ·)
            (walkEntries (expanduser home (pyStripInput base_dir)) entries0),
            false) := by
        simp [find_audio_files, hfs]
      refine ⟨?_, ?_, ?_, ?_, ?_, ?_, ?_⟩
      · rw [hfind]
        exact List.sorted_insertionSort _ _
      · rw [hfind]
        intro f hf
        exact mem_walkEntries _ _ f ((List.mem_insertionSort _).1 hf)
      · intro heq
        exact absurd heq (by simp)
      · intro heq
        exact absurd heq (by simp)
      · intro habs
        rw [hfind]
        intro f hf
        exact abs_walkEntries _ _ habs f ((List.mem_insertionSort _).1 hf)
      · intro entries heq hw
        injection heq with h1
        injection h1 with h2
        subst h2
        rw [hfind]
        intro f hf
        exact walk_beneath _ _ hw f ((List.mem_insertionSort _).1 hf)
      · intro entries heq ns n hin hs
        injection heq with h1
        injection h1 with h2
        subst h2
        rw [hfind]
        exact (List.mem_insertionSort _).2 (walkEntries_complete _ _ _ hin hs _)

theorem c8_witness :
    find_audio_files (fun _ => none) "/root" "gone" = ([], true) ∧
    pathJoin (joinPath "music" []) "a.mp3" ∈
      (find_audio_files
        (fun p => if p = "music" then some (.dir [("a.mp3", .file)]) else none)
        "/root" "music").1 :=
  ⟨(c8_amended_find (fun _ => none) "/root" "gone").2.2.1 rfl,
   (c8_amended_find
      (fun p => if p = "music" then some (.dir [("a.mp3", .file)]) else none)
      "/root" "music").2.2.2.2.2.2 [("a.mp3", .file)] rfl [] "a.mp3"
      (.here (List.mem_singleton.2 rfl)) (by decide)⟩
